import Mathlib

/-!
Shallow embedding of the `curate-bids` repository
(`src/scripts/save_bids_curation.py` and `src/run.py`) and proofs about it.

Python dictionaries are modelled as insertion-ordered association lists:
`lookupA` returns the value of the first matching key, `setAssoc` updates the
first matching key in place or appends a fresh key at the end, which is
exactly the observable behaviour of `d[k]` / `d[k] = v` on a `dict`.
-/

namespace Curation

/-- Lookup in an insertion-ordered association list (Python `d[k]` / `k in d`). -/
def lookupA {α : Type} : List (String × α) → String → Option α
  | [], _ => none
  | (k, v) :: rest, q => if k = q then some v else lookupA rest q

/-- Assignment `d[k] = v` on an insertion-ordered association list: replace the
first binding of `k` in place, or append a new binding at the end. -/
def setAssoc {α : Type} : List (String × α) → String → α → List (String × α)
  | [], k, v => [(k, v)]
  | (k', v') :: rest, k, v =>
    if k' = k then (k, v) :: rest else (k', v') :: setAssoc rest k v

/-! ## `make_file_name_safe` (src/scripts/save_bids_curation.py lines 21 to 47) -/

/-- Characters matched by the complement of the pattern `[^A-Za-z0-9_\-.]+`,
that is, the characters the source considers safe in a file name. -/
def isSafeChar (c : Char) : Bool :=
  (decide ('A' ≤ c) && decide (c ≤ 'Z')) ||
  (decide ('a' ≤ c) && decide (c ≤ 'z')) ||
  (decide ('0' ≤ c) && decide (c ≤ '9')) ||
  c = '_' || c = '-' || c = '.'

/-- Embedding of `re.sub(r"[^A-Za-z0-9_\-.]+", replace, s)`: every maximal run
of unsafe characters is replaced by `rep` exactly once.  The Boolean argument
records whether the previous character belonged to an unsafe run. -/
def subSafeGo (rep : List Char) : Bool → List Char → List Char
  | _, [] => []
  | prev, c :: rest =>
    if isSafeChar c then c :: subSafeGo rep false rest
    else (if prev then [] else rep) ++ subSafeGo rep true rest

/-- Result of line 35 of the source: the replacement string is dropped (reset
to the empty string) when `safe_patt.match(replace_str)` succeeds, that is,
when the replacement starts with an unsafe character. -/
def effectiveReplace (replaceStr : String) : String :=
  match replaceStr.data with
  | [] => replaceStr
  | c :: _ => if isSafeChar c then replaceStr else ""

/-- True when the string starts with a dot (Python `s.startswith(".")`). -/
def startsWithDot (s : String) : Bool :=
  match s.data with
  | c :: _ => c == '.'
  | [] => false

/-- Embedding of `make_file_name_safe` (lines 21 to 47): substitute unsafe
runs by the (checked) replacement string, then strip one leading dot. -/
def make_file_name_safe (inputBasename : String) (replaceStr : String) : String :=
  let rep := effectiveReplace replaceStr
  let safeOut := subSafeGo rep.data false inputBasename.data
  match safeOut with
  | '.' :: rest => String.mk rest
  | l => String.mk l

/-! ## Data model of the Flywheel objects seen by `save_curation_csvs` -/

/-- Value of `file.info["BIDS"]` when the key is present: either the string
`"NA"` or a dictionary with optional `ignore` / `Folder` / `Filename` /
`IntendedFor` keys (the last one holding a list of `Folder` entries). -/
inductive BidsValue : Type where
  | NA : BidsValue
  | dict (ignore : Option Bool) (Folder : Option String) (Filename : Option String)
      (IntendedFor : Option (List String)) : BidsValue
  deriving DecidableEq

/-- A file of an acquisition, with the metadata keys the script reads.
An `Option` value of `none` models an absent dictionary key. -/
structure FwFile : Type where
  name : String
  ftype : String
  infoBIDS : Option BidsValue
  infoIntendedFor : Option (List String)
  infoSeriesNumber : Option String
  deriving DecidableEq

structure Acquisition : Type where
  label : String
  id : String
  files : List FwFile
  deriving DecidableEq

structure Session : Type where
  label : String
  acquisitions : List Acquisition
  deriving DecidableEq

structure Subject : Type where
  label : String
  sessions : List Session
  deriving DecidableEq

structure Project : Type where
  subjects : List Subject
  deriving DecidableEq

/-- Full BIDS path of a file (lines 131 to 160 of the source). -/
def bidsPathOf (f : FwFile) : String :=
  match f.infoBIDS with
  | none => "Not_yet_BIDS_curated"
  | some BidsValue.NA => "nonBids"
  | some (BidsValue.dict ig fo fi _) =>
    match ig, fo, fi with
    | some ig', some fo', some fi' => if ig' then "ignored" else fo' ++ "/" ++ fi'
    | _, _, _ =>
      (if ig.isNone then "missing_ignore " else "")
        ++ (if fo.isNone then "missing_Folder " else "")
        ++ (if fi.isNone then "missing_Filename " else "")

/-- Series number of a file, `"?"` when absent (lines 162 to 165). -/
def seriesNumberOf (f : FwFile) : String :=
  match f.infoSeriesNumber with
  | some s => s
  | none => "?"

/-- The three placeholder paths excluded from duplicate detection (line 168). -/
def placeholderPaths : List String := ["ignored", "nonBids", "Not_yet_BIDS_curated"]

/-! ## Duplicate detection (lines 167 to 176) -/

/-- One step of duplicate detection for one BIDS path: returns the updated
`seen_paths` dictionary, the `unique` flag for the file and the increment of
`num_duplicates`. -/
def dupStep (seen : List (String × Nat)) (q : String) :
    List (String × Nat) × String × Nat :=
  if q ∈ placeholderPaths then (seen, "", 0)
  else
    match lookupA seen q with
    | some n => (setAssoc seen q (n + 1), "duplicate " ++ toString (n + 1), 1)
    | none => (setAssoc seen q 0, "unique", 0)

structure ProcOut : Type where
  seen : List (String × Nat)
  flags : List String
  numDup : Nat

/-- The duplicate-detection pass over a sequence of curated BIDS paths,
starting from a given `seen_paths` dictionary. -/
def processPaths (seen : List (String × Nat)) : List String → ProcOut
  | [] => ⟨seen, [], 0⟩
  | q :: rest =>
    let st := dupStep seen q
    let r := processPaths st.1 rest
    ⟨r.seen, st.2.1 :: r.flags, st.2.2 + r.numDup⟩

/-- One row of the per-subject `nifti_df` table (lines 102 to 113). -/
structure Row : Type where
  seriesNumber : String
  subject : String
  session : String
  acqLabel : String
  fileName : String
  fileType : String
  bidsPath : String
  unique : String
  deriving DecidableEq

/-- A file together with the session and acquisition labels it sits under,
in the order the triple nested loop of lines 119 to 129 visits it. -/
structure SItem : Type where
  sessLabel : String
  acqLabel : String
  acqId : String
  file : FwFile
  deriving DecidableEq

def subjectItems (s : Subject) : List SItem :=
  (s.sessions.map (fun sess =>
    (sess.acquisitions.map (fun a =>
      a.files.map (fun f => SItem.mk sess.label a.label a.id f))).flatten)).flatten

def mkRow (subjLabel : String) (it : SItem) (path flag : String) : Row :=
  ⟨seriesNumberOf it.file, subjLabel, it.sessLabel, it.acqLabel,
    it.file.name, it.file.ftype, path, flag⟩

structure SubjScanOut : Type where
  rows : List Row
  seen : List (String × Nat)
  numDup : Nat

/-- The per-subject file scan: for each file compute its BIDS path, run the
duplicate-detection step and record the `nifti_df` row (lines 129 to 194). -/
def scanItems (subjLabel : String) (seen : List (String × Nat)) :
    List SItem → SubjScanOut
  | [] => ⟨[], seen, 0⟩
  | it :: rest =>
    let q := bidsPathOf it.file
    let st := dupStep seen q
    let r := scanItems subjLabel st.1 rest
    ⟨mkRow subjLabel it q st.2.1 :: r.rows, r.seen, st.2.2 + r.numDup⟩

/-- Comparison used for `nifti_df.sort_values(by=["Curated BIDS path"])`
(line 196): lexicographic order on the code points of the path. -/
def charListLe : List Char → List Char → Bool
  | [], _ => true
  | _ :: _, [] => false
  | a :: as, b :: bs =>
    if a = b then charListLe as bs else decide (a < b)

def rowLe (a b : Row) : Prop := charListLe a.bidsPath.data b.bidsPath.data = true

instance : DecidableRel rowLe := fun a b => decEq _ _

/-- Rows contributed by one subject to `all_df`, already sorted by curated
BIDS path (lines 184 to 198). -/
def subjectSortedRows (s : Subject) : List Row :=
  List.insertionSort rowLe (scanItems s.label [] (subjectItems s)).rows

/-! ## IntendedFor bookkeeping (lines 149 to 158 and 200 to 205) -/

/-- Per fieldmap file, the four parallel dictionaries of the source
(`intended_fors`, `intended_for_acq_label`, `intended_for_acq_id`,
`intended_for_dirs`).  They are always written together with the same key,
so one record keyed by file name models all four. -/
structure IforEntry : Type where
  ifors : List String
  acqLabel : String
  acqId : String
  dirs : List String
  deriving DecidableEq

/-- The entry recorded for a file, when lines 149 to 158 record one: only
when the file has a `BIDS` info key, an `IntendedFor` info key and a
non-empty `IntendedFor` list. -/
def fileIforEntry (acqLabel acqId : String) (f : FwFile) : Option (String × IforEntry) :=
  match f.infoBIDS with
  | none => none
  | some bv =>
    match f.infoIntendedFor with
    | none => none
    | some l =>
      if 0 < l.length then
        some (f.name,
          ⟨l, acqLabel, acqId,
            match bv with
            | BidsValue.NA => ["folder is missing"]
            | BidsValue.dict _ _ _ (some ds) => ds
            | BidsValue.dict _ _ _ none => ["folder is missing"]⟩)
      else none

/-- The per-subject IntendedFor dictionaries after scanning all files. -/
def subjectIforMap (s : Subject) : List (String × IforEntry) :=
  (subjectItems s).foldl
    (fun m it =>
      match fileIforEntry it.acqLabel it.acqId it.file with
      | some kv => setAssoc m kv.1 kv.2
      | none => m) []

/-- Labels of all acquisitions of a subject, in visit order (lines 119 to 127). -/
def subjectAcqLabels (s : Subject) : List String :=
  (s.sessions.map (fun sess => sess.acquisitions.map Acquisition.label)).flatten

/-- Count update for `acquisition_labels` (lines 124 to 127). -/
def bumpAssoc (m : List (String × Nat)) (k : String) : List (String × Nat) :=
  match lookupA m k with
  | some n => setAssoc m k (n + 1)
  | none => setAssoc m k 1

/-! ## The whole-project scan (lines 71 to 205) -/

structure ScanState : Type where
  acqLabels : List (String × Nat)
  rows : List Row
  allSeen : List (String × List (String × Nat))
  allIfor : List (String × List (String × IforEntry))
  numDup : Nat

/-- One iteration of the outer `for subject in project.subjects.iter_find()`
loop: `seen_paths` and the IntendedFor dictionaries start empty for each
subject, the sorted per-subject rows are appended to `all_df`, and the
per-subject results are stored under the subject label. -/
def scanStep (st : ScanState) (s : Subject) : ScanState :=
  let sub := scanItems s.label [] (subjectItems s)
  { acqLabels := (subjectAcqLabels s).foldl bumpAssoc st.acqLabels
    rows := st.rows ++ List.insertionSort rowLe sub.rows
    allSeen := setAssoc st.allSeen s.label sub.seen
    allIfor := setAssoc st.allIfor s.label (subjectIforMap s)
    numDup := st.numDup + sub.numDup }

def projectScan (p : Project) : ScanState :=
  p.subjects.foldl scanStep ⟨[], [], [], [], 0⟩

/-! ## Command line arguments (lines 342 to 362) -/

structure Args : Type where
  groupLabel : String
  projectLabel : String
  apiKey : Option String
  intendedFor : Option (List String)
  verbose : Nat

/-- Python truthiness of `args.intended_for` at line 249: the flag was given
with at least one argument. -/
def intendedForActive (args : Args) : Bool :=
  match args.intendedFor with
  | none => false
  | some l => !l.isEmpty

/-! ## Regex pairing and compilation (lines 251 to 257) -/

/-- A compiled regular expression is modelled extensionally by what
`regex.search` matches; compilation may fail on a malformed pattern, which
the abstract compiler `rc` decides. -/
abbrev Regex : Type := String → Bool

/-- Elements of a list at even positions (Python `l[::2]`). -/
def everyOther {α : Type} : List α → List α
  | [] => []
  | [a] => [a]
  | a :: _ :: rest => a :: everyOther rest

/-- Embedding of `zip(args.intended_for[::2], args.intended_for[1::2])`. -/
def stringPairs (l : List String) : List (String × String) :=
  (everyOther l).zip (everyOther (l.drop 1))

/-- Embedding of the compilation loop of lines 255 to 257; a compilation
failure propagates as an uncaught exception. -/
def compilePairs (rc : String → Except String Regex) :
    List (String × String) → Except String (List (Regex × Regex))
  | [] => Except.ok []
  | (a, b) :: rest =>
    match rc a with
    | Except.error e => Except.error e
    | Except.ok ra =>
      match rc b with
      | Except.error e => Except.error e
      | Except.ok rb =>
        match compilePairs rc rest with
        | Except.error e => Except.error e
        | Except.ok rs => Except.ok ((ra, rb) :: rs)

/-! ## IntendedFor write-back (lines 259 to 286) -/

structure ModifyCall : Type where
  acqId : String
  fileName : String
  newIntendedFor : List String
  deriving DecidableEq

/-- The inner `for regex in regex_pairs` loop for one fieldmap file: each
matching pair overwrites `new_intended_fors[subj][file_name]` and issues one
`modify_acquisition_file_info` call; the value left behind is the one of the
last matching pair. -/
def fileWriteBack (acqId name : String) (ifors : List String) :
    List (Regex × Regex) → Option (List String) × List ModifyCall
  | [] => (none, [])
  | (r1, r2) :: rest =>
    let tl := fileWriteBack acqId name ifors rest
    if r1 name then
      let nl := ifors.filter (fun i => r2 i)
      (match tl.1 with
       | some v => some v
       | none => some nl, ⟨acqId, name, nl⟩ :: tl.2)
    else tl

/-- The `for file_name in all_intended_for_dirs[subj]` loop.  The keys of the
per-subject dictionaries are pairwise distinct by construction, so building
the new dictionary key by key matches the incremental assignments of the
source. -/
def subjWriteBack (pairs : List (Regex × Regex)) :
    List (String × IforEntry) → List (String × List String) × List ModifyCall
  | [] => ([], [])
  | (k, e) :: rest =>
    let fr := fileWriteBack e.acqId k e.ifors pairs
    let r := subjWriteBack pairs rest
    (match fr.1 with
     | some nl => (k, nl) :: r.1
     | none => r.1, fr.2 ++ r.2)

/-- The `for subj in all_intended_for_dirs` loop of lines 261 to 284:
`new_intended_fors[subj]` is created (possibly empty) for every subject. -/
def allWriteBack (pairs : List (Regex × Regex)) :
    List (String × List (String × IforEntry)) →
      List (String × List (String × List String)) × List ModifyCall
  | [] => ([], [])
  | (lbl, entries) :: rest =>
    let sr := subjWriteBack pairs entries
    let r := allWriteBack pairs rest
    ((lbl, sr.1) :: r.1, sr.2 ++ r.2)

/-- The `else` branch of line 285: `new_intended_fors = all_intended_fors`. -/
def defaultNew (maps : List (String × List (String × IforEntry))) :
    List (String × List (String × List String)) :=
  maps.map (fun se => (se.1, se.2.map (fun ke => (ke.1, ke.2.ifors))))

/-! ## The intendedfors CSV (lines 216 to 317) -/

def strLe (a b : String) : Prop := charListLe a.data b.data = true

instance : DecidableRel strLe := fun a b => decEq _ _

/-- Effect of the in-place `all_intended_fors[subj][k].sort()` of line 243:
when verbose output is on, the `IntendedFor` list of every entry that has at
least one folder is sorted before any later use; entries with no folder are
never touched because the sort sits inside the `for i in v` loop. -/
def applyVerboseSort (verbose : Nat) (maps : List (String × List (String × IforEntry))) :
    List (String × List (String × IforEntry)) :=
  if verbose = 0 then maps
  else
    maps.map (fun se =>
      (se.1, se.2.map (fun ke =>
        (ke.1,
          match ke.2.dirs with
          | [] => ke.2
          | _ => { ke.2 with ifors := List.insertionSort strLe ke.2.ifors }))))

def iforHeaderRow : List String :=
  ["acquisition label", "file name and folder", "IntendedFor List of BIDS paths"]

/-- Rows written by the verbose block of lines 223 to 246 (the maps passed in
are already the verbose-sorted ones, matching the in-place sort). -/
def initialSection (maps : List (String × List (String × IforEntry))) :
    List (List String) :=
  ["Initial values (before correction)"] :: iforHeaderRow ::
    (maps.map (fun se =>
      (se.2.map (fun ke =>
        [ke.2.acqLabel, ke.1] ::
          (ke.2.dirs.map (fun fo =>
            ["", fo] :: ke.2.ifors.map (fun j => ["", "", j]))).flatten)).flatten)).flatten

/-- Rows written by the final loop of lines 306 to 317 for one subject.
Reading `new_intended_fors[subj][k]` raises a `KeyError` when the write-back
left no entry for `k`; the lookup only happens inside the `for i in v` loop,
so an entry with no folder raises nothing. -/
def finalSection (newM : List (String × List String)) :
    List (String × IforEntry) → Except String (List (List String))
  | [] => Except.ok []
  | (k, e) :: rest =>
    match finalSection newM rest with
    | Except.error msg => Except.error msg
    | Except.ok tl =>
      match e.dirs with
      | [] => Except.ok ([e.acqLabel, k] :: tl)
      | _ =>
        match lookupA newM k with
        | none => Except.error ("KeyError: " ++ k)
        | some js =>
          Except.ok (([e.acqLabel, k] ::
            (e.dirs.map (fun fo =>
              ["", fo] :: js.map (fun j => ["", "", j]))).flatten) ++ tl)

def allFinalSection (newAll : List (String × List (String × List String))) :
    List (String × List (String × IforEntry)) → Except String (List (List String))
  | [] => Except.ok []
  | (lbl, entries) :: rest =>
    match finalSection ((lookupA newAll lbl).getD []) entries with
    | Except.error msg => Except.error msg
    | Except.ok hd =>
      match allFinalSection newAll rest with
      | Except.error msg => Except.error msg
      | Except.ok tl => Except.ok (hd ++ tl)

/-! ## Output file names (lines 207 to 211, 216 to 218 and 320 to 322) -/

def niftisCsvName (g pl : String) : String :=
  make_file_name_safe g "_" ++ "_" ++ make_file_name_safe pl "_" ++ "_niftis.csv"

def intendedforsCsvName (g pl : String) : String :=
  make_file_name_safe g "_" ++ "_" ++ make_file_name_safe pl "_" ++ "_intendedfors.csv"

def acquisitionsCsvName (g pl : String) : String :=
  make_file_name_safe g "_" ++ "_" ++ make_file_name_safe pl "_" ++ "_acquisitions.csv"

/-! ## The assembled pipeline -/

structure CsvFile : Type where
  name : String
  rows : List (List String)
  deriving DecidableEq

/-- Everything `save_curation_csvs` leaves behind when it returns normally:
the three CSV files, the write-back calls made through the client, the lines
of the duplicate report printed at lines 332 to 339, and the process exit
status set by `os.sys.exit(0)` at line 375. -/
structure PipeOut : Type where
  niftis : CsvFile
  intendedfors : CsvFile
  acquisitions : CsvFile
  modifyCalls : List ModifyCall
  dupReport : List String
  exitCode : Nat
  deriving DecidableEq

def niftisHeader : List String :=
  ["SeriesNumber", "Subject", "Session", "Acquisition label (SeriesDescription)",
    "File name", "File type", "Curated BIDS path", "Unique?"]

def rowCells (r : Row) : List String :=
  [r.seriesNumber, r.subject, r.session, r.acqLabel, r.fileName, r.fileType,
    r.bidsPath, r.unique]

/-- The duplicate report of lines 332 to 339.  The second pass over
`project.subjects.iter_find()` is modelled by the same subject list; the
lookup of `all_seen_paths[subject.label]` always finds a key because every
label was stored during the scan. -/
def dupReportLines (p : Project) (st : ScanState) : List String :=
  if 0 < st.numDup then
    "ERROR: the following BIDS paths appear more than once:" ::
      (p.subjects.map (fun s =>
        ((lookupA st.allSeen s.label).getD []).filterMap (fun kv =>
          if 0 < kv.2 then some ("  " ++ kv.1) else none))).flatten
  else ["No duplicates were found."]

/-- Shallow embedding of `save_curation_csvs` followed by the `exit(0)` of
`__main__` (lines 56 to 339 and 373 to 375).  `rc` is the abstract
`re.compile`; an `Except.error` is an uncaught Python exception. -/
def runSave (rc : String → Except String Regex) (p : Project) (args : Args) :
    Except String PipeOut :=
  let sc := projectScan p
  let maps := applyVerboseSort args.verbose sc.allIfor
  match (if intendedForActive args then
           match compilePairs rc (stringPairs (args.intendedFor.getD [])) with
           | Except.error e => Except.error e
           | Except.ok pairs => Except.ok (allWriteBack pairs maps)
         else Except.ok (defaultNew maps, [])) with
  | Except.error e => Except.error e
  | Except.ok (newAll, calls) =>
    match allFinalSection newAll maps with
    | Except.error e => Except.error e
    | Except.ok finalRows =>
      Except.ok
        { niftis := ⟨niftisCsvName args.groupLabel args.projectLabel,
            niftisHeader :: sc.rows.map rowCells⟩
          intendedfors := ⟨intendedforsCsvName args.groupLabel args.projectLabel,
            (if 0 < args.verbose then initialSection maps else []) ++
              (if 0 < args.verbose then [["Final values (after correction)"]] else []) ++
              [["", "", ""], iforHeaderRow] ++ finalRows⟩
          acquisitions := ⟨acquisitionsCsvName args.groupLabel args.projectLabel,
            ["acquisition label", "count"] ::
              sc.acqLabels.map (fun kv => [kv.1, toString kv.2])⟩
          modifyCalls := calls
          dupReport := dupReportLines p sc
          exitCode := 0 }

/-! ## Accessors used to state claims about a possibly failing run -/

def exceptIsOk {ε α : Type} : Except ε α → Bool
  | Except.ok _ => true
  | Except.error _ => false

def runFiles (r : Except String PipeOut) : Option (List String) :=
  match r with
  | Except.ok o => some [o.niftis.name, o.intendedfors.name, o.acquisitions.name]
  | Except.error _ => none

def runExit (r : Except String PipeOut) : Option Nat :=
  match r with
  | Except.ok o => some o.exitCode
  | Except.error _ => none

def runDup (r : Except String PipeOut) : List String :=
  match r with
  | Except.ok o => o.dupReport
  | Except.error _ => []

def modifyCallsOf (r : Except String PipeOut) : List ModifyCall :=
  match r with
  | Except.ok o => o.modifyCalls
  | Except.error _ => []

/-! ## The second entry point, `src/run.py` -/

/-- A well-formed `/flywheel/v0/config.json`: it parses as JSON and has the
three fields the script extracts. -/
structure RunConfig : Type where
  apiKey : String
  destinationId : String
  reset : Bool
  deriving DecidableEq

inductive PyError : Type where
  | nameError (name : String)
  deriving DecidableEq

/-- The call the script intends to make at line 15. -/
structure MainWithArgsCall : Type where
  apiKey : String
  sessionId : String
  reset : Bool
  deriving DecidableEq

/-- Names bound in the module scope of `run.py` when line 9 executes:
the imports (lines 1 and 2), `CONFIG_FILE_PATH` (line 7) and the
`with ... as config_file` binding (line 8). -/
def boundNamesAtLine9 : List String :=
  ["json", "main_with_args", "CONFIG_FILE_PATH", "config_file"]

/-- Embedding of the `__main__` block of `run.py`.  Line 9 evaluates the
identifier `CONFIG_FILE` as the argument of `json.load`; evaluating an
identifier looks it up among the bound names and raises `NameError` when it
is absent.  Only on success would the config fields be extracted and
`main_with_args(api_key, session_id, reset)` be reached. -/
def runPyMain (cfg : RunConfig) : Except PyError MainWithArgsCall :=
  if boundNamesAtLine9.contains "CONFIG_FILE" then
    Except.ok ⟨cfg.apiKey, cfg.destinationId, cfg.reset⟩
  else
    Except.error (PyError.nameError "CONFIG_FILE")

/-! ## Derived views used to state the claims -/

/-- The `unique` flag assigned to a path arriving when the `seen_paths`
dictionary has the given contents (the three branches of lines 167 to 176). -/
def flagFor (seen : List (String × Nat)) (q : String) : String :=
  if q ∈ placeholderPaths then ""
  else
    match lookupA seen q with
    | some n => "duplicate " ++ toString (n + 1)
    | none => "unique"

def projectRows (p : Project) : List Row := (projectScan p).rows

/-- All files of the project, each tagged with its subject label, in visit
order. -/
def projectItems (p : Project) : List (String × SItem) :=
  (p.subjects.map (fun s => (subjectItems s).map (fun it => (s.label, it)))).flatten

/-- The seven data columns of a row (everything except the `Unique?` flag). -/
def coreOfRow (r : Row) : List String :=
  [r.seriesNumber, r.subject, r.session, r.acqLabel, r.fileName, r.fileType, r.bidsPath]

/-- The seven data columns a file contributes to its row. -/
def coreOfItem (x : String × SItem) : List String :=
  [seriesNumberOf x.2.file, x.1, x.2.sessLabel, x.2.acqLabel, x.2.file.name,
    x.2.file.ftype, bidsPathOf x.2.file]

def acquisitionLabelCounts (p : Project) : List (String × Nat) :=
  (projectScan p).acqLabels

def projectAcqLabels (p : Project) : List String :=
  (p.subjects.map subjectAcqLabels).flatten

def subjectPaths (s : Subject) : List String :=
  (subjectItems s).map (fun it => bidsPathOf it.file)

def subjectScan (s : Subject) : SubjScanOut :=
  scanItems s.label [] (subjectItems s)

/-- The IntendedFor dictionaries that the write-back of lines 261 to 284
operates on: the scanned ones, after the in-place sorting that a verbose run
performs while printing the initial section. -/
def effMaps (p : Project) (args : Args) : List (String × List (String × IforEntry)) :=
  applyVerboseSort args.verbose (projectScan p).allIfor

/-- The compiled regex pairs, empty when compilation fails. -/
def pairsOf (rc : String → Except String Regex) (args : Args) : List (Regex × Regex) :=
  match compilePairs rc (stringPairs (args.intendedFor.getD [])) with
  | Except.ok ps => ps
  | Except.error _ => []

/-! ## Concrete fixtures used by the witnesses -/

/-- A regularly curated file: `BIDS` info with `ignore = False` and the given
folder and filename. -/
def fOk (nm fo fi : String) : FwFile :=
  ⟨nm, "nifti", some (BidsValue.dict (some false) (some fo) (some fi) none),
    none, some "1"⟩

/-- A curated fieldmap file carrying a two-element `IntendedFor` list. -/
def fFmap : FwFile :=
  ⟨"fmA", "nifti",
    some (BidsValue.dict (some false) (some "fmap") (some "fmA.json") (some ["fmap"])),
    some ["x", "y"], some "2"⟩

/-- One subject holding two files curated to the same BIDS path. -/
def exProjDup : Project :=
  ⟨[⟨"s1", [⟨"ses1", [⟨"acq1", "id1",
    [fOk "f1.nii" "anat" "a.nii", fOk "f2.nii" "anat" "a.nii"]⟩]⟩]⟩]⟩

/-- Two subjects, each holding one file curated to the same BIDS path. -/
def exProjTwoSubj : Project :=
  ⟨[⟨"s1", [⟨"ses1", [⟨"acq1", "id1", [fOk "f1.nii" "anat" "a.nii"]⟩]⟩]⟩,
    ⟨"s2", [⟨"ses1", [⟨"acq1", "id2", [fOk "f2.nii" "anat" "a.nii"]⟩]⟩]⟩]⟩

/-- One subject holding one fieldmap file with an IntendedFor list. -/
def exProjIfor : Project :=
  ⟨[⟨"s1", [⟨"ses1", [⟨"acq1", "id1", [fFmap]⟩]⟩]⟩]⟩

def argsPlain : Args := ⟨"g", "p", none, none, 0⟩

def argsIfor : Args := ⟨"g", "p", none, some ["fmA", "x"], 0⟩

def argsOdd : Args := ⟨"g", "p", none, some ["a", "b", "c"], 0⟩

def argsBad : Args := ⟨"g", "p", none, some ["x", "y"], 0⟩

/-- An abstract compiler under which every pattern is valid and matches a
string exactly when it equals the pattern (enough for the witnesses; the
patterns used there are valid Python regular expressions with exactly that
meaning on the inputs involved). -/
def rcEq : String → Except String Regex := fun s => Except.ok (fun t => s == t)

/-- An abstract compiler under which every pattern is valid and matches
nothing. -/
def rcNone : String → Except String Regex := fun _ => Except.ok (fun _ => false)

/-- An abstract compiler that fails on the pattern `"x"`, modelling a
malformed regular expression there. -/
def rcFailX : String → Except String Regex := fun s =>
  if s == "x" then Except.error "invalid regular expression" else Except.ok (fun _ => false)

/-! ## Lemmas about the association-list dictionaries -/

theorem lookupA_setAssoc_self {α : Type} (m : List (String × α)) (k : String) (v : α) :
    lookupA (setAssoc m k v) k = some v := by
  induction m with
  | nil => simp [setAssoc, lookupA]
  | cons hd tl ih =>
    obtain ⟨k', v'⟩ := hd
    by_cases h : k' = k
    · simp [setAssoc, h, lookupA]
    · simp [setAssoc, h, lookupA, ih]

theorem lookupA_setAssoc_ne {α : Type} (m : List (String × α)) {k q : String} (v : α)
    (h : q ≠ k) : lookupA (setAssoc m k v) q = lookupA m q := by
  induction m with
  | nil => simp [setAssoc, lookupA, Ne.symm h]
  | cons hd tl ih =>
    obtain ⟨k', v'⟩ := hd
    by_cases hk : k' = k
    · subst hk
      simp [setAssoc, lookupA, Ne.symm h]
    · simp [setAssoc, hk, lookupA, ih]

theorem setAssoc_keys {α : Type} (m : List (String × α)) (k : String) (v : α) :
    (setAssoc m k v).map Prod.fst = m.map Prod.fst ∨
      (setAssoc m k v).map Prod.fst = m.map Prod.fst ++ [k] := by
  induction m with
  | nil => right; simp [setAssoc]
  | cons hd tl ih =>
    obtain ⟨k', v'⟩ := hd
    by_cases h : k' = k
    · left; simp [setAssoc, h]
    · rcases ih with ih | ih
      · left; simp [setAssoc, h, ih]
      · right; simp [setAssoc, h, ih]

/-- A key that is looked up successfully is present among the keys. -/
theorem mem_keys_of_lookupA {α : Type} (m : List (String × α)) (q : String) (v : α)
    (h : lookupA m q = some v) : q ∈ m.map Prod.fst := by
  induction m with
  | nil => simp [lookupA] at h
  | cons hd tl ih =>
    obtain ⟨k', v'⟩ := hd
    rw [List.map_cons]
    by_cases hk : k' = q
    · subst hk
      exact List.mem_cons_self _ _
    · simp [lookupA, hk] at h
      exact List.mem_cons_of_mem _ (ih h)

theorem lookupA_isSome_of_mem_keys {α : Type} (m : List (String × α)) (q : String)
    (h : q ∈ m.map Prod.fst) : (lookupA m q).isSome = true := by
  induction m with
  | nil => simp at h
  | cons hd tl ih =>
    obtain ⟨k', v'⟩ := hd
    rw [List.map_cons] at h
    by_cases hk : k' = q
    · simp [lookupA, hk]
    · rcases List.mem_cons.mp h with h1 | h2
      · exact absurd h1.symm hk
      · simp [lookupA, hk, ih h2]

/-- Mapping values keeps lookups aligned (`lookupA` commutes with a value map). -/
theorem lookupA_map_value {α β : Type} (f : α → β) (m : List (String × α)) (q : String) :
    lookupA (m.map (fun kv => (kv.1, f kv.2))) q = (lookupA m q).map f := by
  induction m with
  | nil => simp [lookupA]
  | cons hd tl ih =>
    obtain ⟨k', v'⟩ := hd
    by_cases hk : k' = q
    · subst hk; simp [lookupA]
    · simp [lookupA, hk, ih]

/-! ## Lemmas about `make_file_name_safe` -/

theorem subSafeGo_nil_rep (l : List Char) (b : Bool) :
    subSafeGo [] b l = l.filter isSafeChar := by
  induction l generalizing b with
  | nil => rfl
  | cons c rest ih =>
    by_cases h : isSafeChar c
    · simp [subSafeGo, h, List.filter_cons, ih]
    · simp [subSafeGo, h, List.filter_cons, ih]

theorem subSafeGo_all_safe (rep : List Char) (b : Bool) (l : List Char)
    (h : ∀ c ∈ l, isSafeChar c = true) : subSafeGo rep b l = l := by
  induction l generalizing b with
  | nil => rfl
  | cons c rest ih =>
    have hc : isSafeChar c = true := h c (List.mem_cons_self _ _)
    simp [subSafeGo, hc]
    exact ih false (fun d hd => h d (List.mem_cons_of_mem _ hd))

theorem data_mk (l : List Char) : (String.mk l).data = l := rfl

theorem mk_data (s : String) : String.mk s.data = s := rfl

theorem make_file_name_safe_eq (s rep : String) :
    make_file_name_safe s rep =
      match subSafeGo (effectiveReplace rep).data false s.data with
      | '.' :: rest => String.mk rest
      | l => String.mk l := rfl

theorem make_file_name_safe_empty (s : String) :
    make_file_name_safe s "" =
      match s.data.filter isSafeChar with
      | '.' :: rest => String.mk rest
      | l => String.mk l := by
  rw [make_file_name_safe_eq]
  rw [show (effectiveReplace "").data = [] from rfl, subSafeGo_nil_rep]

/-- When every character of the string is safe, sanitizing with the
replacement given as an underscore keeps the string unchanged provided it
does not start with a dot. -/
theorem make_file_name_safe_id (s : String)
    (h1 : ∀ c ∈ s.data, isSafeChar c = true) (h2 : startsWithDot s = false) :
    make_file_name_safe s "_" = s := by
  rw [make_file_name_safe_eq, subSafeGo_all_safe _ _ _ h1]
  split
  · exfalso
    rename_i heq
    rw [startsWithDot] at h2
    rw [heq] at h2
    simp at h2
  · rename_i l hne
    exact mk_data s

/-! ## Claim C2 -/

/-- Claim C2 as stated is false: sanitizing the input `".."` (all characters
safe, two leading dots) strips only one dot, and the returned string still
starts with a dot. -/
theorem claim_C2_counterexample :
    startsWithDot (make_file_name_safe ".." "") = true ∧
    make_file_name_safe ".." "" = "." := by
  constructor
  · rfl
  · rfl

theorem match_strip_ne (c : Char) (rest : List Char) (hc : c ≠ '.') :
    (match c :: rest with
     | '.' :: r => String.mk r
     | l => String.mk l) = String.mk (c :: rest) := by
  split
  · rename_i r heq
    injection heq with h1 h2
    exact absurd h1 hc
  · rfl

/-- Claim C2 (amended): with the default empty replacement,
`make_file_name_safe` removes every character outside `[A-Za-z0-9_.-]` and
strips at most one leading dot; the returned string contains only characters
from that set, and it can start with a dot only when the kept characters of
the input begin with two or more dots. -/
theorem claim_C2_amended (s : String) :
    (∀ c ∈ (make_file_name_safe s "").data, isSafeChar c = true) ∧
    (startsWithDot (make_file_name_safe s "") = true →
      (s.data.filter isSafeChar).take 2 = ['.', '.']) := by
  cases hl : s.data.filter isSafeChar with
  | nil =>
    rw [make_file_name_safe_empty, hl]
    constructor
    · intro c hc
      rw [data_mk] at hc
      simp at hc
    · intro h
      rw [startsWithDot, data_mk] at h
      simp at h
  | cons c rest =>
    by_cases hc : c = '.'
    · subst hc
      rw [make_file_name_safe_empty, hl]
      constructor
      · intro d hd
        rw [show (match ('.' :: rest : List Char) with
            | '.' :: r => String.mk r
            | l => String.mk l) = String.mk rest from rfl, data_mk] at hd
        have hmem : d ∈ s.data.filter isSafeChar := by
          rw [hl]; exact List.mem_cons_of_mem _ hd
        exact List.of_mem_filter hmem
      · intro h
        rw [show (match ('.' :: rest : List Char) with
            | '.' :: r => String.mk r
            | l => String.mk l) = String.mk rest from rfl] at h
        rw [startsWithDot, data_mk] at h
        cases rest with
        | nil => simp at h
        | cons d tl =>
          have hd : d = '.' := by simpa using h
          subst hd
          simp
    · rw [make_file_name_safe_empty, hl, match_strip_ne c rest hc]
      constructor
      · intro d hd
        rw [data_mk] at hd
        have hmem : d ∈ s.data.filter isSafeChar := by rw [hl]; exact hd
        exact List.of_mem_filter hmem
      · intro h
        rw [startsWithDot, data_mk] at h
        have : c = '.' := by simpa using h
        exact absurd this hc

/-- Instantiation of the amended claim C2 at the concrete input `"..a"`,
discharging the inner implication there. -/
theorem claim_C2_witness :
    (∀ c ∈ (make_file_name_safe "..a" "").data, isSafeChar c = true) ∧
    (("..a" : String).data.filter isSafeChar).take 2 = ['.', '.'] :=
  ⟨(claim_C2_amended "..a").1, (claim_C2_amended "..a").2 (by rfl)⟩

/-! ## Claim C6 -/

/-- Claim C6 as stated is false: for the group label `"a b"` (which contains
a space) the niftis CSV is not named with the label verbatim, because the
labels are first passed through `make_file_name_safe` with an underscore
replacement. -/
theorem claim_C6_counterexample :
    niftisCsvName "a b" "p" ≠ "a b" ++ "_" ++ "p" ++ "_niftis.csv" ∧
    niftisCsvName "a b" "p" = "a_b_p_niftis.csv" := by
  constructor
  · intro h
    exact absurd h (by decide)
  · rfl

/-- Claim C6 (amended): the three output files are named
`{group}_{project}_niftis.csv`, `{group}_{project}_intendedfors.csv` and
`{group}_{project}_acquisitions.csv` where the two labels are the
command-line labels passed through `make_file_name_safe`; when both labels
contain only characters from `[A-Za-z0-9_.-]` and do not start with a dot,
the names use exactly the given labels. -/
theorem claim_C6_amended (g pl : String)
    (hg1 : ∀ c ∈ g.data, isSafeChar c = true) (hg2 : startsWithDot g = false)
    (hp1 : ∀ c ∈ pl.data, isSafeChar c = true) (hp2 : startsWithDot pl = false) :
    niftisCsvName g pl = g ++ "_" ++ pl ++ "_niftis.csv" ∧
    intendedforsCsvName g pl = g ++ "_" ++ pl ++ "_intendedfors.csv" ∧
    acquisitionsCsvName g pl = g ++ "_" ++ pl ++ "_acquisitions.csv" := by
  rw [niftisCsvName, intendedforsCsvName, acquisitionsCsvName,
    make_file_name_safe_id g hg1 hg2, make_file_name_safe_id pl hp1 hp2]
  exact ⟨rfl, rfl, rfl⟩

/-- Instantiation of the amended claim C6 at concrete safe labels. -/
theorem claim_C6_witness :
    niftisCsvName "g1" "p2" = "g1" ++ "_" ++ "p2" ++ "_niftis.csv" ∧
    intendedforsCsvName "g1" "p2" = "g1" ++ "_" ++ "p2" ++ "_intendedfors.csv" ∧
    acquisitionsCsvName "g1" "p2" = "g1" ++ "_" ++ "p2" ++ "_acquisitions.csv" :=
  claim_C6_amended "g1" "p2" (by decide) (by rfl) (by decide) (by rfl)

/-! ## Lemmas about the duplicate-detection pass -/

theorem processPaths_nil (seen : List (String × Nat)) :
    processPaths seen [] = ⟨seen, [], 0⟩ := rfl

theorem processPaths_cons (seen : List (String × Nat)) (q : String) (rest : List String) :
    processPaths seen (q :: rest) =
      ⟨(processPaths (dupStep seen q).1 rest).seen,
        (dupStep seen q).2.1 :: (processPaths (dupStep seen q).1 rest).flags,
        (dupStep seen q).2.2 + (processPaths (dupStep seen q).1 rest).numDup⟩ := rfl

theorem dupStep_placeholder {q : String} (seen : List (String × Nat))
    (h : q ∈ placeholderPaths) : dupStep seen q = (seen, "", 0) := by
  simp [dupStep, h]

theorem dupStep_dup {q : String} {n : Nat} (seen : List (String × Nat))
    (h : q ∉ placeholderPaths) (hn : lookupA seen q = some n) :
    dupStep seen q = (setAssoc seen q (n + 1), "duplicate " ++ toString (n + 1), 1) := by
  simp [dupStep, h, hn]

theorem dupStep_new {q : String} (seen : List (String × Nat))
    (h : q ∉ placeholderPaths) (hn : lookupA seen q = none) :
    dupStep seen q = (setAssoc seen q 0, "unique", 0) := by
  simp [dupStep, h, hn]

/-- After the pass, the counter of a non-placeholder path is the counter it
started with plus the number of its occurrences, with a fresh counter
starting at zero on the first occurrence. -/
theorem processPaths_seen_lookup (paths : List String) (seen : List (String × Nat))
    (p : String) (hp : p ∉ placeholderPaths) :
    lookupA (processPaths seen paths).seen p =
      match lookupA seen p with
      | some m => some (m + paths.count p)
      | none => if paths.count p = 0 then none else some (paths.count p - 1) := by
  induction paths generalizing seen with
  | nil =>
    cases h : lookupA seen p <;> simp [processPaths_nil, h]
  | cons q rest ih =>
    rw [processPaths_cons]
    by_cases hq : q ∈ placeholderPaths
    · have hne : q ≠ p := fun hh => hp (hh ▸ hq)
      rw [dupStep_placeholder seen hq]
      have hcount : (q :: rest).count p = rest.count p := by
        simp [List.count_cons, hne]
      rw [hcount]
      exact ih seen
    · by_cases hqp : q = p
      · subst hqp
        have hcount : (q :: rest).count q = rest.count q + 1 := by
          simp [List.count_cons]
        cases hn : lookupA seen q with
        | some n =>
          rw [dupStep_dup seen hq hn]
          have := ih (setAssoc seen q (n + 1))
          rw [this, lookupA_setAssoc_self, hcount]
          simp
          omega
        | none =>
          rw [dupStep_new seen hq hn]
          have := ih (setAssoc seen q 0)
          rw [this, lookupA_setAssoc_self, hcount]
          simp
      · have hcount : (q :: rest).count p = rest.count p := by
          simp [List.count_cons, hqp]
        have hlook : ∀ v, lookupA (setAssoc seen q v) p = lookupA seen p :=
          fun v => lookupA_setAssoc_ne seen v (fun hh => hqp hh.symm)
        cases hn : lookupA seen q with
        | some n =>
          rw [dupStep_dup seen hq hn]
          have := ih (setAssoc seen q (n + 1))
          rw [this, hlook, hcount]
        | none =>
          rw [dupStep_new seen hq hn]
          have := ih (setAssoc seen q 0)
          rw [this, hlook, hcount]

theorem processPaths_flags_length (paths : List String) (seen : List (String × Nat)) :
    (processPaths seen paths).flags.length = paths.length := by
  induction paths generalizing seen with
  | nil => rfl
  | cons q rest ih => rw [processPaths_cons]; simp [ih]

/-- The flag of the i-th path is determined by the `seen_paths` state reached
after the first i paths. -/
theorem processPaths_flags_get (paths : List String) (seen : List (String × Nat))
    (i : Nat) :
    (processPaths seen paths).flags[i]? =
      (paths[i]?).map (fun q => flagFor (processPaths seen (paths.take i)).seen q) := by
  induction paths generalizing seen i with
  | nil => simp [processPaths_nil]
  | cons q rest ih =>
    cases i with
    | zero =>
      rw [processPaths_cons]
      simp [processPaths_nil]
      by_cases hq : q ∈ placeholderPaths
      · rw [dupStep_placeholder seen hq]
        simp [flagFor, hq]
      · cases hn : lookupA seen q with
        | some n =>
          rw [dupStep_dup seen hq hn]
          simp [flagFor, hq, hn]
        | none =>
          rw [dupStep_new seen hq hn]
          simp [flagFor, hq, hn]
    | succ j =>
      rw [processPaths_cons]
      have htake : (q :: rest).take (j + 1) = q :: rest.take j := rfl
      rw [htake]
      have hstep : processPaths seen (q :: rest.take j) =
          ⟨(processPaths (dupStep seen q).1 (rest.take j)).seen,
            (dupStep seen q).2.1 :: (processPaths (dupStep seen q).1 (rest.take j)).flags,
            (dupStep seen q).2.2 + (processPaths (dupStep seen q).1 (rest.take j)).numDup⟩ :=
        processPaths_cons seen q (rest.take j)
      rw [hstep]
      simpa using ih (dupStep seen q).1 j

/-! ## Claim C1 -/

/-- Claim C1: duplicate-path detection is a single pass over the sequence of
curated BIDS paths.  For every sequence and every (non-placeholder) path,
the counter stored in `seen_paths` after the pass equals the number of
occurrences of the path beyond the first (with no counter when the path
never occurs); the first occurrence is flagged `unique`, and the k-th later
occurrence is flagged `duplicate k`. -/
theorem claim_C1 (paths : List String) (p : String) (hp : p ∉ placeholderPaths) :
    (lookupA (processPaths [] paths).seen p =
      if paths.count p = 0 then none else some (paths.count p - 1)) ∧
    (∀ i : Nat, paths[i]? = some p →
      (processPaths [] paths).flags[i]? =
        some (if (paths.take i).count p = 0 then "unique"
              else "duplicate " ++ toString ((paths.take i).count p))) := by
  constructor
  · have := processPaths_seen_lookup paths [] p hp
    simpa [lookupA] using this
  · intro i hip
    rw [processPaths_flags_get paths [] i, hip]
    have hseen := processPaths_seen_lookup (paths.take i) [] p hp
    simp only [lookupA] at hseen
    by_cases hz : (paths.take i).count p = 0
    · rw [hz] at hseen
      simp at hseen
      simp [flagFor, hp, hseen, hz]
    · rw [if_neg hz] at hseen
      have harith : (paths.take i).count p - 1 + 1 = (paths.take i).count p := by omega
      simp [flagFor, hp, hseen, hz, harith]

/-- Instantiation of claim C1 on a concrete sequence with a repeated path. -/
theorem claim_C1_witness :
    (lookupA (processPaths [] ["anat/a", "anat/a"]).seen "anat/a" = some 1) ∧
    (processPaths [] ["anat/a", "anat/a"]).flags[1]? = some "duplicate 1" := by
  have h := claim_C1 ["anat/a", "anat/a"] "anat/a" (by decide)
  constructor
  · have h1 := h.1
    simpa using h1
  · have h2 := h.2 1 (by rfl)
    simpa using h2

/-! ## Lemmas relating the file scan to the path pass -/

theorem scanItems_cons (l : String) (seen : List (String × Nat)) (it : SItem)
    (rest : List SItem) :
    scanItems l seen (it :: rest) =
      ⟨mkRow l it (bidsPathOf it.file) (dupStep seen (bidsPathOf it.file)).2.1 ::
          (scanItems l (dupStep seen (bidsPathOf it.file)).1 rest).rows,
        (scanItems l (dupStep seen (bidsPathOf it.file)).1 rest).seen,
        (dupStep seen (bidsPathOf it.file)).2.2 +
          (scanItems l (dupStep seen (bidsPathOf it.file)).1 rest).numDup⟩ := rfl

theorem scanItems_seen (l : String) (items : List SItem) (seen : List (String × Nat)) :
    (scanItems l seen items).seen =
      (processPaths seen (items.map (fun it => bidsPathOf it.file))).seen := by
  induction items generalizing seen with
  | nil => rfl
  | cons it rest ih =>
    rw [scanItems_cons, List.map_cons, processPaths_cons]
    exact ih (dupStep seen (bidsPathOf it.file)).1

theorem scanItems_flags (l : String) (items : List SItem) (seen : List (String × Nat)) :
    (scanItems l seen items).rows.map Row.unique =
      (processPaths seen (items.map (fun it => bidsPathOf it.file))).flags := by
  induction items generalizing seen with
  | nil => rfl
  | cons it rest ih =>
    rw [scanItems_cons]
    simp only [List.map_cons]
    rw [processPaths_cons, ih (dupStep seen (bidsPathOf it.file)).1]
    rfl

theorem scanItems_numDup (l : String) (items : List SItem) (seen : List (String × Nat)) :
    (scanItems l seen items).numDup =
      (processPaths seen (items.map (fun it => bidsPathOf it.file))).numDup := by
  induction items generalizing seen with
  | nil => rfl
  | cons it rest ih =>
    rw [scanItems_cons]
    simp only [List.map_cons]
    rw [processPaths_cons, ih (dupStep seen (bidsPathOf it.file)).1]

theorem scanItems_core (l : String) (items : List SItem) (seen : List (String × Nat)) :
    (scanItems l seen items).rows.map coreOfRow =
      items.map (fun it => coreOfItem (l, it)) := by
  induction items generalizing seen with
  | nil => rfl
  | cons it rest ih =>
    rw [scanItems_cons]
    simp only [List.map_cons]
    rw [ih (dupStep seen (bidsPathOf it.file)).1]
    rfl

/-- Placeholder paths are never inserted into `seen_paths`. -/
theorem processPaths_seen_placeholder (paths : List String) (seen : List (String × Nat))
    (q : String) (hq : q ∈ placeholderPaths) :
    lookupA (processPaths seen paths).seen q = lookupA seen q := by
  induction paths generalizing seen with
  | nil => rfl
  | cons x rest ih =>
    rw [processPaths_cons]
    by_cases hx : x ∈ placeholderPaths
    · rw [dupStep_placeholder seen hx]
      exact ih seen
    · have hne : q ≠ x := fun hh => hx (hh ▸ hq)
      cases hn : lookupA seen x with
      | some n =>
        rw [dupStep_dup seen hx hn]
        rw [ih (setAssoc seen x (n + 1))]
        exact lookupA_setAssoc_ne seen _ hne
      | none =>
        rw [dupStep_new seen hx hn]
        rw [ih (setAssoc seen x 0)]
        exact lookupA_setAssoc_ne seen _ hne

/-! ## Lemmas about the project-level fold -/

theorem foldl_scanStep_rows (l : List Subject) (st : ScanState) :
    (l.foldl scanStep st).rows =
      st.rows ++ (l.map (fun s => List.insertionSort rowLe (subjectScan s).rows)).flatten := by
  induction l generalizing st with
  | nil => simp
  | cons s rest ih =>
    rw [List.foldl_cons, ih]
    simp [scanStep, subjectScan]

theorem foldl_scanStep_numDup (l : List Subject) (st : ScanState) :
    (l.foldl scanStep st).numDup =
      st.numDup + (l.map (fun s => (subjectScan s).numDup)).sum := by
  induction l generalizing st with
  | nil => simp
  | cons s rest ih =>
    rw [List.foldl_cons, ih]
    simp [scanStep, subjectScan]
    omega

theorem foldl_scanStep_acqLabels (l : List Subject) (st : ScanState) :
    (l.foldl scanStep st).acqLabels =
      ((l.map subjectAcqLabels).flatten).foldl bumpAssoc st.acqLabels := by
  induction l generalizing st with
  | nil => simp
  | cons s rest ih =>
    rw [List.foldl_cons, ih]
    simp [scanStep, List.foldl_append]

theorem foldl_scanStep_allIfor (l : List Subject) (st : ScanState) :
    (l.foldl scanStep st).allIfor =
      l.foldl (fun m s => setAssoc m s.label (subjectIforMap s)) st.allIfor := by
  induction l generalizing st with
  | nil => rfl
  | cons s rest ih =>
    rw [List.foldl_cons, List.foldl_cons, ih]
    rfl

/-! ## Claim C10 -/

/-- Claim C10: duplicate detection is scoped per subject.  The rows of the
whole scan decompose into independent per-subject scans, each starting from
an empty `seen_paths` dictionary, so a flag never depends on the files of
other subjects; within a subject the first occurrence of a non-placeholder
path is flagged `unique` whatever the rest of the project holds; and the
placeholder paths `ignored`, `nonBids`, `Not_yet_BIDS_curated` are never
counted (no entry in `seen_paths`) and receive an empty flag. -/
theorem claim_C10 (p : Project) :
    (projectRows p =
      (p.subjects.map (fun s => List.insertionSort rowLe (subjectScan s).rows)).flatten) ∧
    (∀ s ∈ p.subjects, ∀ q ∈ placeholderPaths,
      lookupA (subjectScan s).seen q = none) ∧
    (∀ s ∈ p.subjects, ∀ i : Nat, ∀ q : String,
      (subjectPaths s)[i]? = some q → q ∉ placeholderPaths →
      ((subjectPaths s).take i).count q = 0 →
      ((subjectScan s).rows.map Row.unique)[i]? = some "unique") ∧
    (∀ s ∈ p.subjects, ∀ i : Nat, ∀ q : String,
      (subjectPaths s)[i]? = some q → q ∈ placeholderPaths →
      ((subjectScan s).rows.map Row.unique)[i]? = some "") := by
  refine ⟨?_, ?_, ?_, ?_⟩
  · rw [projectRows, projectScan, foldl_scanStep_rows]
    rfl
  · intro s _ q hq
    rw [subjectScan, scanItems_seen]
    rw [processPaths_seen_placeholder _ _ _ hq]
    rfl
  · intro s _ i q hiq hq hcount
    rw [subjectScan, scanItems_flags]
    rw [show (subjectItems s).map (fun it => bidsPathOf it.file) = subjectPaths s from rfl]
    rw [processPaths_flags_get _ _ i, hiq]
    have hseen := processPaths_seen_lookup ((subjectPaths s).take i) [] q hq
    simp only [lookupA, hcount] at hseen
    simp at hseen
    simp [flagFor, hq, hseen]
  · intro s _ i q hiq hq
    rw [subjectScan, scanItems_flags]
    rw [show (subjectItems s).map (fun it => bidsPathOf it.file) = subjectPaths s from rfl]
    rw [processPaths_flags_get _ _ i, hiq]
    simp [flagFor, hq]

/-- Instantiation of claim C10 on a project with two subjects sharing one
curated BIDS path: the file of the second subject is still flagged unique,
and the placeholder paths are absent from the seen dictionary. -/
theorem claim_C10_witness :
    (((subjectScan ⟨"s2", [⟨"ses1", [⟨"acq1", "id2", [fOk "f2.nii" "anat" "a.nii"]⟩]⟩]⟩).rows.map
        Row.unique)[0]? = some "unique") ∧
    lookupA (subjectScan ⟨"s2", [⟨"ses1", [⟨"acq1", "id2", [fOk "f2.nii" "anat" "a.nii"]⟩]⟩]⟩).seen
      "ignored" = none := by
  have h := claim_C10 exProjTwoSubj
  have hmem : (⟨"s2", [⟨"ses1", [⟨"acq1", "id2", [fOk "f2.nii" "anat" "a.nii"]⟩]⟩]⟩ : Subject) ∈
      exProjTwoSubj.subjects := by
    rw [exProjTwoSubj]
    decide
  constructor
  · exact h.2.2.1 _ hmem 0 "anat/a.nii" (by rfl) (by decide) (by rfl)
  · exact h.2.1 _ hmem "ignored" (by decide)

/-! ## Lemmas about the acquisition-label counter -/

theorem lookupA_foldl_bumpAssoc (ls : List String) (init : List (String × Nat))
    (k : String) :
    lookupA (ls.foldl bumpAssoc init) k =
      match lookupA init k with
      | some m => some (m + ls.count k)
      | none => if ls.count k = 0 then none else some (ls.count k) := by
  induction ls generalizing init with
  | nil => cases h : lookupA init k <;> simp [h]
  | cons q rest ih =>
    rw [List.foldl_cons]
    by_cases hqk : q = k
    · subst hqk
      have hcount : (q :: rest).count q = rest.count q + 1 := by
        simp [List.count_cons]
      cases hn : lookupA init q with
      | some m =>
        rw [show bumpAssoc init q = setAssoc init q (m + 1) from by simp [bumpAssoc, hn]]
        rw [ih (setAssoc init q (m + 1)), lookupA_setAssoc_self, hcount]
        simp
        omega
      | none =>
        rw [show bumpAssoc init q = setAssoc init q 1 from by simp [bumpAssoc, hn]]
        rw [ih (setAssoc init q 1), lookupA_setAssoc_self, hcount]
        simp
        omega
    · have hcount : (q :: rest).count k = rest.count k := by
        simp [List.count_cons, hqk]
      have hpres : lookupA (bumpAssoc init q) k = lookupA init k := by
        cases hn : lookupA init q with
        | some m =>
          rw [show bumpAssoc init q = setAssoc init q (m + 1) from by simp [bumpAssoc, hn]]
          exact lookupA_setAssoc_ne init _ (fun hh => hqk hh.symm)
        | none =>
          rw [show bumpAssoc init q = setAssoc init q 1 from by simp [bumpAssoc, hn]]
          exact lookupA_setAssoc_ne init _ (fun hh => hqk hh.symm)
      rw [ih (bumpAssoc init q), hpres, hcount]

theorem setAssoc_keys_nodup {α : Type} (m : List (String × α)) (k : String) (v : α)
    (h : (m.map Prod.fst).Nodup) : ((setAssoc m k v).map Prod.fst).Nodup := by
  induction m with
  | nil => simp [setAssoc]
  | cons hd tl ih =>
    obtain ⟨k', v'⟩ := hd
    rw [List.map_cons] at h
    have h1 := List.nodup_cons.mp h
    by_cases hk : k' = k
    · subst hk
      simpa [setAssoc] using h
    · rw [setAssoc]
      rw [if_neg hk]
      rw [List.map_cons]
      refine List.nodup_cons.mpr ⟨?_, ih h1.2⟩
      intro hmem
      rcases setAssoc_keys tl k v with hkeys | hkeys
      · rw [hkeys] at hmem
        exact h1.1 hmem
      · rw [hkeys] at hmem
        rcases List.mem_append.mp hmem with hm | hm
        · exact h1.1 hm
        · simp at hm
          exact hk hm

theorem foldl_bumpAssoc_keys_nodup (ls : List String) (init : List (String × Nat))
    (h : (init.map Prod.fst).Nodup) : ((ls.foldl bumpAssoc init).map Prod.fst).Nodup := by
  induction ls generalizing init with
  | nil => exact h
  | cons q rest ih =>
    rw [List.foldl_cons]
    refine ih (bumpAssoc init q) ?_
    cases hn : lookupA init q with
    | some m =>
      rw [show bumpAssoc init q = setAssoc init q (m + 1) from by simp [bumpAssoc, hn]]
      exact setAssoc_keys_nodup init q (m + 1) h
    | none =>
      rw [show bumpAssoc init q = setAssoc init q 1 from by simp [bumpAssoc, hn]]
      exact setAssoc_keys_nodup init q 1 h

/-! ## Claim C9 -/

/-- Claim C9: the acquisition-label frequency table has one entry per
distinct label (its keys are pairwise distinct), and the count stored for a
label equals the total number of acquisitions carrying that label across all
subjects and sessions of the project (no entry for labels never seen). -/
theorem claim_C9 (p : Project) (label : String) :
    ((acquisitionLabelCounts p).map Prod.fst).Nodup ∧
    lookupA (acquisitionLabelCounts p) label =
      (if (projectAcqLabels p).count label = 0 then none
       else some ((projectAcqLabels p).count label)) := by
  have hacq : acquisitionLabelCounts p = (projectAcqLabels p).foldl bumpAssoc [] := by
    rw [acquisitionLabelCounts, projectScan, foldl_scanStep_acqLabels, projectAcqLabels]
  constructor
  · rw [hacq]
    exact foldl_bumpAssoc_keys_nodup _ _ (by simp)
  · rw [hacq]
    have h := lookupA_foldl_bumpAssoc (projectAcqLabels p) [] label
    simpa [lookupA] using h

/-! ## Claim C7 -/

theorem perm_core_subjects (l : List Subject) :
    ((l.map (fun s => List.insertionSort rowLe (subjectScan s).rows)).flatten.map
        coreOfRow).Perm
      ((l.map (fun s => (subjectItems s).map (fun it => (s.label, it)))).flatten.map
        coreOfItem) := by
  induction l with
  | nil => simp
  | cons s rest ih =>
    simp only [List.map_cons, List.flatten_cons, List.map_append]
    refine List.Perm.append ?_ ih
    have h1 : ((List.insertionSort rowLe (subjectScan s).rows).map coreOfRow).Perm
        ((subjectScan s).rows.map coreOfRow) :=
      (List.perm_insertionSort rowLe (subjectScan s).rows).map coreOfRow
    have h2 : (subjectScan s).rows.map coreOfRow =
        ((subjectItems s).map (fun it => (s.label, it))).map coreOfItem := by
      rw [subjectScan, scanItems_core, List.map_map]
      rfl
    rw [h2] at h1
    exact h1

/-- Claim C7: the table written to the per-file CSV has exactly one row per
file seen during the scan; each row holds the series number, subject,
session, acquisition label, file name, file type and curated BIDS path of
its file (the `Row` structure also carries the uniqueness flag, which is the
eighth column). -/
theorem claim_C7 (p : Project) :
    (projectRows p).length = (projectItems p).length ∧
    ((projectRows p).map coreOfRow).Perm ((projectItems p).map coreOfItem) := by
  have hrows : projectRows p =
      (p.subjects.map (fun s => List.insertionSort rowLe (subjectScan s).rows)).flatten := by
    rw [projectRows, projectScan, foldl_scanStep_rows]
    rfl
  have hitems : projectItems p =
      (p.subjects.map (fun s => (subjectItems s).map (fun it => (s.label, it)))).flatten :=
    rfl
  have hperm : ((projectRows p).map coreOfRow).Perm ((projectItems p).map coreOfItem) := by
    rw [hrows, hitems]
    exact perm_core_subjects p.subjects
  refine ⟨?_, hperm⟩
  have h1 : ((projectRows p).map coreOfRow).length =
      ((projectItems p).map coreOfItem).length := hperm.length_eq
  simpa using h1

/-! ## Claim C5 -/

/-- Claim C5 concerns `run.py`; the code contradicts it because of a slip:
line 9 reads `json.load(CONFIG_FILE)` while the file handle opened on line 8
is bound to the name `config_file`, so the identifier `CONFIG_FILE` is
undefined and every execution raises `NameError` before reaching
`main_with_args`, for every well-formed config file. -/
theorem claim_C5_code_bug (cfg : RunConfig) :
    runPyMain cfg = Except.error (PyError.nameError "CONFIG_FILE") := rfl

/-! ## Lemmas for the no-write-back run of the pipeline -/

/-- With distinct keys, membership determines the lookup. -/
theorem lookupA_of_mem_nodup {α : Type} (m : List (String × α))
    (h : (m.map Prod.fst).Nodup) (k : String) (v : α) (hm : (k, v) ∈ m) :
    lookupA m k = some v := by
  induction m with
  | nil => simp at hm
  | cons hd tl ih =>
    obtain ⟨k', v'⟩ := hd
    rw [List.map_cons] at h
    have h1 := List.nodup_cons.mp h
    rcases List.mem_cons.mp hm with hm1 | hm2
    · injection hm1 with hk hv
      subst hk; subst hv
      simp [lookupA]
    · have hk : k' ≠ k := by
        intro hh
        subst hh
        exact h1.1 (List.mem_map.mpr ⟨(k', v), hm2, rfl⟩)
      simp [lookupA, hk]
      exact ih h1.2 hm2

theorem finalSection_default_ok (full entries : List (String × IforEntry))
    (hsub : ∀ k ∈ entries.map Prod.fst, k ∈ full.map Prod.fst) :
    ∃ rows, finalSection (full.map (fun ke => (ke.1, ke.2.ifors))) entries =
      Except.ok rows := by
  induction entries with
  | nil => exact ⟨[], rfl⟩
  | cons hd tl ih =>
    obtain ⟨k, e⟩ := hd
    obtain ⟨tlrows, htl⟩ := ih (fun k hk => hsub k (by simp [hk]))
    have hk : k ∈ full.map Prod.fst := hsub k (by simp)
    have hls : (lookupA (full.map (fun ke => (ke.1, ke.2.ifors))) k).isSome = true := by
      rw [lookupA_map_value (fun v => v.ifors) full k]
      cases hfull : lookupA full k with
      | some v => simp
      | none =>
        exfalso
        have := lookupA_isSome_of_mem_keys full k hk
        rw [hfull] at this
        simp at this
    rw [finalSection, htl]
    cases hd : e.dirs with
    | nil => exact ⟨_, rfl⟩
    | cons d ds =>
      cases hlook : lookupA (full.map (fun ke => (ke.1, ke.2.ifors))) k with
      | none => rw [hlook] at hls; simp at hls
      | some js => exact ⟨_, rfl⟩

theorem allFinalSection_sub_ok (newAll : List (String × List (String × List String)))
    (sub : List (String × List (String × IforEntry)))
    (h : ∀ se ∈ sub, ∃ entries2 : List (String × IforEntry),
      lookupA newAll se.1 = some (entries2.map (fun ke => (ke.1, ke.2.ifors))) ∧
      ∀ k ∈ se.2.map Prod.fst, k ∈ entries2.map Prod.fst) :
    ∃ rows, allFinalSection newAll sub = Except.ok rows := by
  induction sub with
  | nil => exact ⟨[], rfl⟩
  | cons hd tl ih =>
    obtain ⟨lbl, entries⟩ := hd
    obtain ⟨entries2, hlook, hsub⟩ := h (lbl, entries) (by simp)
    obtain ⟨hdrows, hhd⟩ := finalSection_default_ok entries2 entries hsub
    obtain ⟨tlrows, htl⟩ := ih (fun se hse => h se (by simp [hse]))
    refine ⟨hdrows ++ tlrows, ?_⟩
    rw [allFinalSection, hlook]
    simp only [Option.getD_some]
    rw [hhd, htl]

theorem foldl_setAssoc_keys_nodup {α : Type} (f : Subject → α) (l : List Subject)
    (init : List (String × α)) (h : (init.map Prod.fst).Nodup) :
    ((l.foldl (fun m s => setAssoc m s.label (f s)) init).map Prod.fst).Nodup := by
  induction l generalizing init with
  | nil => exact h
  | cons s rest ih =>
    rw [List.foldl_cons]
    exact ih (setAssoc init s.label (f s)) (setAssoc_keys_nodup init s.label (f s) h)

theorem allIfor_keys_nodup (p : Project) :
    (((projectScan p).allIfor).map Prod.fst).Nodup := by
  rw [projectScan, foldl_scanStep_allIfor]
  exact foldl_setAssoc_keys_nodup subjectIforMap p.subjects [] (by simp)

theorem applyVerboseSort_keys (verbose : Nat)
    (maps : List (String × List (String × IforEntry))) :
    (applyVerboseSort verbose maps).map Prod.fst = maps.map Prod.fst := by
  rw [applyVerboseSort]
  by_cases h : verbose = 0
  · simp [h]
  · simp [h]

/-- When no write-back is requested, the final section always succeeds,
because `new_intended_fors` aliases `all_intended_fors`. -/
theorem allFinalSection_default_ok (maps : List (String × List (String × IforEntry)))
    (hnodup : (maps.map Prod.fst).Nodup) :
    ∃ rows, allFinalSection (defaultNew maps) maps = Except.ok rows := by
  refine allFinalSection_sub_ok (defaultNew maps) maps ?_
  intro se hse
  refine ⟨se.2, ?_, fun k hk => hk⟩
  rw [defaultNew]
  rw [lookupA_map_value (fun v => v.map (fun ke => (ke.1, ke.2.ifors))) maps se.1]
  rw [lookupA_of_mem_nodup maps hnodup se.1 se.2 hse]
  rfl

/-- Without the `--intended-for` option the pipeline always returns
normally, with the three CSV files, no write-back call, the duplicate
report, and exit status 0. -/
theorem runSave_inactive_ok (rc : String → Except String Regex) (p : Project)
    (args : Args) (hA : intendedForActive args = false) :
    runFiles (runSave rc p args) =
      some [niftisCsvName args.groupLabel args.projectLabel,
            intendedforsCsvName args.groupLabel args.projectLabel,
            acquisitionsCsvName args.groupLabel args.projectLabel] ∧
    runExit (runSave rc p args) = some 0 ∧
    runDup (runSave rc p args) = dupReportLines p (projectScan p) ∧
    modifyCallsOf (runSave rc p args) = [] := by
  obtain ⟨rows, hrows⟩ := allFinalSection_default_ok
      (applyVerboseSort args.verbose (projectScan p).allIfor)
      (by rw [applyVerboseSort_keys]; exact allIfor_keys_nodup p)
  refine ⟨?_, ?_, ?_, ?_⟩ <;>
    (simp only [runSave, hA, Bool.false_eq_true, if_false]
     rw [hrows]
     rfl)

/-! ## Claim C3 -/

/-- Claim C3: when duplicate BIDS paths are found (and no write-back is
requested, the only mode in which duplicates influence nothing else), the
program reports them on standard output and treats them as a warning: no
exception is raised, the three CSV files are produced, the process exits
with status 0, and the report block is printed. -/
theorem claim_C3 (rc : String → Except String Regex) (p : Project) (args : Args)
    (hA : intendedForActive args = false) (hD : 0 < (projectScan p).numDup) :
    runFiles (runSave rc p args) =
      some [niftisCsvName args.groupLabel args.projectLabel,
            intendedforsCsvName args.groupLabel args.projectLabel,
            acquisitionsCsvName args.groupLabel args.projectLabel] ∧
    runExit (runSave rc p args) = some 0 ∧
    (runDup (runSave rc p args)).head? =
      some "ERROR: the following BIDS paths appear more than once:" := by
  obtain ⟨hfiles, hexit, hdup, hcalls⟩ := runSave_inactive_ok rc p args hA
  refine ⟨hfiles, hexit, ?_⟩
  rw [hdup, dupReportLines, if_pos hD]
  rfl

/-- Instantiation of claim C3 on a concrete project containing one duplicate
curated BIDS path. -/
theorem claim_C3_witness :
    runFiles (runSave rcNone exProjDup argsPlain) =
      some [niftisCsvName "g" "p", intendedforsCsvName "g" "p",
            acquisitionsCsvName "g" "p"] ∧
    runExit (runSave rcNone exProjDup argsPlain) = some 0 ∧
    (runDup (runSave rcNone exProjDup argsPlain)).head? =
      some "ERROR: the following BIDS paths appear more than once:" :=
  claim_C3 rcNone exProjDup argsPlain (by rfl) (by decide)

/-! ## Lemmas about regex pairing and compilation -/

theorem everyOther_length {α : Type} : ∀ l : List α,
    (everyOther l).length = (l.length + 1) / 2
  | [] => by simp [everyOther]
  | [a] => by simp [everyOther]
  | a :: b :: rest => by
    rw [everyOther]
    simp only [List.length_cons]
    rw [everyOther_length rest]
    omega

/-- The zip of the even-indexed and odd-indexed elements has one pair per two
elements: an odd-length list silently loses its last element. -/
theorem stringPairs_length (l : List String) :
    (stringPairs l).length = l.length / 2 := by
  rw [stringPairs, List.length_zip, everyOther_length, everyOther_length,
    List.length_drop]
  omega

theorem compilePairs_error (rc : String → Except String Regex)
    (ps : List (String × String))
    (h : ∃ pr ∈ ps, exceptIsOk (rc pr.1) = false ∨ exceptIsOk (rc pr.2) = false) :
    ∃ e, compilePairs rc ps = Except.error e := by
  induction ps with
  | nil => simp at h
  | cons hd tl ih =>
    obtain ⟨a, b⟩ := hd
    cases ha : rc a with
    | error e => exact ⟨e, by rw [compilePairs, ha]⟩
    | ok ra =>
      cases hb : rc b with
      | error e => exact ⟨e, by rw [compilePairs, ha, hb]⟩
      | ok rb =>
        have htl : ∃ pr ∈ tl,
            exceptIsOk (rc pr.1) = false ∨ exceptIsOk (rc pr.2) = false := by
          rcases h with ⟨pr, hmem, hor⟩
          rcases List.mem_cons.mp hmem with h1 | h2
          · exfalso
            subst h1
            rcases hor with hor | hor
            · simp [exceptIsOk, ha] at hor
            · simp [exceptIsOk, hb] at hor
          · exact ⟨pr, h2, hor⟩
        obtain ⟨e, he⟩ := ih htl
        exact ⟨e, by rw [compilePairs, ha, hb, he]⟩

/-- A compilation failure inside the regex loop aborts the whole run. -/
theorem runSave_error_of_compile_error (rc : String → Except String Regex)
    (p : Project) (args : Args) (hA : intendedForActive args = true)
    (h : ∃ pr ∈ stringPairs (args.intendedFor.getD []),
      exceptIsOk (rc pr.1) = false ∨ exceptIsOk (rc pr.2) = false) :
    exceptIsOk (runSave rc p args) = false := by
  obtain ⟨e, he⟩ := compilePairs_error rc _ h
  simp only [runSave, hA]
  rw [he]
  rfl

/-! ## Claim C8 -/

/-- Claim C8 as stated is false on its odd-length half: the list
`["a", "b", "c"]` (three syntactically valid regular expressions) is zipped
into the single pair `("a", "b")`, the unpaired last element is silently
dropped, and the run completes without an exception. -/
theorem claim_C8_counterexample :
    stringPairs ["a", "b", "c"] = [("a", "b")] ∧
    exceptIsOk (runSave rcNone ⟨[]⟩ argsOdd) = true :=
  ⟨rfl, rfl⟩

/-- Claim C8 (amended): the `--intended-for` arguments are zipped into
pairs of even-indexed and odd-indexed elements, yielding floor(n/2) pairs,
so an odd-length list is silently truncated rather than rejected; a list
whose paired elements contain a malformed regular expression makes the run
fail with an uncaught exception. -/
theorem claim_C8_amended (rc : String → Except String Regex) (p : Project)
    (args : Args) (l : List String) :
    (stringPairs l).length = l.length / 2 ∧
    (args.intendedFor = some l → intendedForActive args = true →
      (∃ pr ∈ stringPairs l,
        exceptIsOk (rc pr.1) = false ∨ exceptIsOk (rc pr.2) = false) →
      exceptIsOk (runSave rc p args) = false) := by
  refine ⟨stringPairs_length l, ?_⟩
  intro hl hA h
  refine runSave_error_of_compile_error rc p args hA ?_
  have hgetD : args.intendedFor.getD [] = l := by rw [hl]; rfl
  rw [hgetD]
  exact h

/-- Instantiation of the amended claim C8: a malformed first regex aborts the
run on a concrete input. -/
theorem claim_C8_witness :
    (stringPairs ["x", "y"]).length = (["x", "y"] : List String).length / 2 ∧
    exceptIsOk (runSave rcFailX ⟨[]⟩ argsBad) = false :=
  ⟨(claim_C8_amended rcFailX ⟨[]⟩ argsBad ["x", "y"]).1,
   (claim_C8_amended rcFailX ⟨[]⟩ argsBad ["x", "y"]).2 rfl rfl
     ⟨("x", "y"), by decide, Or.inl rfl⟩⟩

/-! ## Lemmas about the IntendedFor write-back -/

/-- Every `modify_acquisition_file_info` call issued for one fieldmap file
carries that file, its acquisition, and the filter of its IntendedFor list
by the second regex of a pair whose first regex matched the file name. -/
theorem fileWriteBack_calls_mem (acqId name : String) (ifors : List String)
    (pairs : List (Regex × Regex)) (c : ModifyCall)
    (hc : c ∈ (fileWriteBack acqId name ifors pairs).2) :
    ∃ pr ∈ pairs, pr.1 name = true ∧
      c = ⟨acqId, name, ifors.filter (fun i => pr.2 i)⟩ := by
  induction pairs with
  | nil => simp [fileWriteBack] at hc
  | cons hd tl ih =>
    obtain ⟨r1, r2⟩ := hd
    rw [fileWriteBack] at hc
    by_cases hr : r1 name
    · rw [if_pos hr] at hc
      rcases List.mem_cons.mp hc with h1 | h2
      · exact ⟨(r1, r2), by simp, hr, h1⟩
      · obtain ⟨pr, hpr, hm, hceq⟩ := ih h2
        exact ⟨pr, List.mem_cons_of_mem _ hpr, hm, hceq⟩
    · rw [if_neg hr] at hc
      obtain ⟨pr, hpr, hm, hceq⟩ := ih hc
      exact ⟨pr, List.mem_cons_of_mem _ hpr, hm, hceq⟩

/-- A fieldmap file whose name matches some first regex receives at least
one write-back call. -/
theorem fileWriteBack_calls_complete (acqId name : String) (ifors : List String)
    (pairs : List (Regex × Regex)) (h : ∃ pr ∈ pairs, pr.1 name = true) :
    ∃ c ∈ (fileWriteBack acqId name ifors pairs).2,
      c.fileName = name ∧ c.acqId = acqId := by
  induction pairs with
  | nil => simp at h
  | cons hd tl ih =>
    obtain ⟨r1, r2⟩ := hd
    rw [fileWriteBack]
    by_cases hr : r1 name
    · rw [if_pos hr]
      exact ⟨⟨acqId, name, ifors.filter (fun i => r2 i)⟩, by simp, rfl, rfl⟩
    · rw [if_neg hr]
      refine ih ?_
      rcases h with ⟨pr, hpr, hm⟩
      rcases List.mem_cons.mp hpr with h1 | h2
      · exfalso
        subst h1
        exact hr hm
      · exact ⟨pr, h2, hm⟩

theorem subjWriteBack_calls_mem (pairs : List (Regex × Regex))
    (entries : List (String × IforEntry)) (c : ModifyCall)
    (hc : c ∈ (subjWriteBack pairs entries).2) :
    ∃ ke ∈ entries, c ∈ (fileWriteBack ke.2.acqId ke.1 ke.2.ifors pairs).2 := by
  induction entries with
  | nil => simp [subjWriteBack] at hc
  | cons hd tl ih =>
    obtain ⟨k, e⟩ := hd
    rw [subjWriteBack] at hc
    rcases List.mem_append.mp hc with h1 | h2
    · exact ⟨(k, e), by simp, h1⟩
    · obtain ⟨ke, hke, hcm⟩ := ih h2
      exact ⟨ke, List.mem_cons_of_mem _ hke, hcm⟩

theorem subjWriteBack_calls_super (pairs : List (Regex × Regex))
    (entries : List (String × IforEntry)) (ke : String × IforEntry)
    (hke : ke ∈ entries) (c : ModifyCall)
    (hc : c ∈ (fileWriteBack ke.2.acqId ke.1 ke.2.ifors pairs).2) :
    c ∈ (subjWriteBack pairs entries).2 := by
  induction entries with
  | nil => simp at hke
  | cons hd tl ih =>
    obtain ⟨k, e⟩ := hd
    rw [subjWriteBack]
    rcases List.mem_cons.mp hke with h1 | h2
    · subst h1
      exact List.mem_append.mpr (Or.inl hc)
    · exact List.mem_append.mpr (Or.inr (ih h2))

theorem allWriteBack_calls_mem (pairs : List (Regex × Regex))
    (maps : List (String × List (String × IforEntry))) (c : ModifyCall)
    (hc : c ∈ (allWriteBack pairs maps).2) :
    ∃ se ∈ maps, c ∈ (subjWriteBack pairs se.2).2 := by
  induction maps with
  | nil => simp [allWriteBack] at hc
  | cons hd tl ih =>
    obtain ⟨lbl, entries⟩ := hd
    rw [allWriteBack] at hc
    rcases List.mem_append.mp hc with h1 | h2
    · exact ⟨(lbl, entries), by simp, h1⟩
    · obtain ⟨se, hse, hcm⟩ := ih h2
      exact ⟨se, List.mem_cons_of_mem _ hse, hcm⟩

theorem allWriteBack_calls_super (pairs : List (Regex × Regex))
    (maps : List (String × List (String × IforEntry)))
    (se : String × List (String × IforEntry)) (hse : se ∈ maps) (c : ModifyCall)
    (hc : c ∈ (subjWriteBack pairs se.2).2) :
    c ∈ (allWriteBack pairs maps).2 := by
  induction maps with
  | nil => simp at hse
  | cons hd tl ih =>
    obtain ⟨lbl, entries⟩ := hd
    rw [allWriteBack]
    rcases List.mem_cons.mp hse with h1 | h2
    · subst h1
      exact List.mem_append.mpr (Or.inl hc)
    · exact List.mem_append.mpr (Or.inr (ih h2))

/-- With the option active and a successful compilation, the calls recorded
by the run are exactly those of the write-back loop. -/
theorem modifyCallsOf_runSave_active (rc : String → Except String Regex)
    (p : Project) (args : Args) (pairs : List (Regex × Regex))
    (hA : intendedForActive args = true)
    (hcp : compilePairs rc (stringPairs (args.intendedFor.getD [])) = Except.ok pairs)
    (rows : List (List String))
    (hrows : allFinalSection
        (allWriteBack pairs (applyVerboseSort args.verbose (projectScan p).allIfor)).1
        (applyVerboseSort args.verbose (projectScan p).allIfor) = Except.ok rows) :
    modifyCallsOf (runSave rc p args) =
      (allWriteBack pairs (applyVerboseSort args.verbose (projectScan p).allIfor)).2 := by
  simp only [runSave, hA, hcp, eq_self_iff_true, if_true]
  rw [hrows]
  rfl

/-! ## Claim C4 -/

/-- Claim C4: the client is modified only through the IntendedFor
write-back.  When the `--intended-for` option is not active no modifying
call is made; every call made overwrites the IntendedFor list of a scanned
fieldmap file whose name matches the first regex of some pair, with exactly
those of its stored IntendedFor entries that match that same pair's second
regex; and when the option is active and the run completes, every
fieldmap file matching some pair's first regex receives at least one such
call. -/
theorem claim_C4 (rc : String → Except String Regex) (p : Project) (args : Args) :
    (intendedForActive args = false → modifyCallsOf (runSave rc p args) = []) ∧
    (∀ c ∈ modifyCallsOf (runSave rc p args),
      ∃ se ∈ effMaps p args, ∃ ke ∈ se.2, ∃ pr ∈ pairsOf rc args,
        ke.1 = c.fileName ∧ ke.2.acqId = c.acqId ∧ pr.1 c.fileName = true ∧
        c.newIntendedFor = ke.2.ifors.filter (fun i => pr.2 i)) ∧
    (intendedForActive args = true → exceptIsOk (runSave rc p args) = true →
      ∀ se ∈ effMaps p args, ∀ ke ∈ se.2,
        (∃ pr ∈ pairsOf rc args, pr.1 ke.1 = true) →
        ∃ c ∈ modifyCallsOf (runSave rc p args),
          c.fileName = ke.1 ∧ c.acqId = ke.2.acqId) := by
  refine ⟨?_, ?_, ?_⟩
  · intro hA
    exact (runSave_inactive_ok rc p args hA).2.2.2
  · intro c hc
    cases hA : intendedForActive args with
    | false =>
      rw [(runSave_inactive_ok rc p args hA).2.2.2] at hc
      simp at hc
    | true =>
      cases hcp : compilePairs rc (stringPairs (args.intendedFor.getD [])) with
      | error e =>
        have hnone : modifyCallsOf (runSave rc p args) = [] := by
          simp only [runSave, hA, hcp, eq_self_iff_true, if_true]
          rfl
        rw [hnone] at hc
        simp at hc
      | ok pairs =>
        cases hrows : allFinalSection
            (allWriteBack pairs (applyVerboseSort args.verbose (projectScan p).allIfor)).1
            (applyVerboseSort args.verbose (projectScan p).allIfor) with
        | error e =>
          have hnone : modifyCallsOf (runSave rc p args) = [] := by
            simp only [runSave, hA, hcp, eq_self_iff_true, if_true]
            rw [hrows]
            rfl
          rw [hnone] at hc
          simp at hc
        | ok rows =>
          rw [modifyCallsOf_runSave_active rc p args pairs hA hcp rows hrows] at hc
          obtain ⟨se, hse, hsc⟩ := allWriteBack_calls_mem pairs _ c hc
          obtain ⟨ke, hke, hkc⟩ := subjWriteBack_calls_mem pairs _ c hsc
          obtain ⟨pr, hpr, hmatch, hceq⟩ :=
            fileWriteBack_calls_mem ke.2.acqId ke.1 ke.2.ifors pairs c hkc
          have hpairs : pairsOf rc args = pairs := by
            rw [pairsOf, hcp]
          refine ⟨se, by rw [effMaps]; exact hse, ke, hke, pr, by rw [hpairs]; exact hpr,
            ?_, ?_, ?_, ?_⟩
          · rw [hceq]
          · rw [hceq]
          · rw [hceq]
            exact hmatch
          · rw [hceq]
  · intro hA hok se hse ke hke hmatch
    cases hcp : compilePairs rc (stringPairs (args.intendedFor.getD [])) with
    | error e =>
      exfalso
      have : exceptIsOk (runSave rc p args) = false := by
        simp only [runSave, hA, hcp, eq_self_iff_true, if_true]
        rfl
      rw [this] at hok
      simp at hok
    | ok pairs =>
      cases hrows : allFinalSection
          (allWriteBack pairs (applyVerboseSort args.verbose (projectScan p).allIfor)).1
          (applyVerboseSort args.verbose (projectScan p).allIfor) with
      | error e =>
        exfalso
        have : exceptIsOk (runSave rc p args) = false := by
          simp only [runSave, hA, hcp, eq_self_iff_true, if_true]
          rw [hrows]
          rfl
        rw [this] at hok
        simp at hok
      | ok rows =>
        have hpairs : pairsOf rc args = pairs := by
          rw [pairsOf, hcp]
        rw [hpairs] at hmatch
        obtain ⟨c, hcmem, hcn, hca⟩ :=
          fileWriteBack_calls_complete ke.2.acqId ke.1 ke.2.ifors pairs hmatch
        refine ⟨c, ?_, hcn, hca⟩
        rw [modifyCallsOf_runSave_active rc p args pairs hA hcp rows hrows]
        refine allWriteBack_calls_super pairs _ se ?_ c
          (subjWriteBack_calls_super pairs se.2 ke hke c hcmem)
        rw [effMaps] at hse
        exact hse

/-- Instantiation of claim C4 on a concrete project with one fieldmap file
matching the single regex pair: the run makes exactly the expected
write-back call. -/
theorem claim_C4_witness :
    (∃ c ∈ modifyCallsOf (runSave rcEq exProjIfor argsIfor),
      c.fileName = "fmA" ∧ c.acqId = "id1") ∧
    modifyCallsOf (runSave rcEq exProjIfor argsIfor) =
      [⟨"id1", "fmA", ["x"]⟩] := by
  constructor
  · refine (claim_C4 rcEq exProjIfor argsIfor).2.2 rfl (by decide)
      (("s1", subjectIforMap ⟨"s1", [⟨"ses1", [⟨"acq1", "id1", [fFmap]⟩]⟩]⟩))
      (by decide) ("fmA", ⟨["x", "y"], "acq1", "id1", ["fmap"]⟩) (by decide) ?_
    refine ⟨((fun t => "fmA" == t), (fun t => "x" == t)), ?_, rfl⟩
    rw [show pairsOf rcEq argsIfor =
        [((fun t => ("fmA" == t)), (fun t => ("x" == t)))] from rfl]
    exact List.mem_singleton.mpr rfl
  · decide

end Curation
